import Mathlib

/-!
Verification development for the `claudia` supervisor (src/main.rs).

Rust strings are embedded as `List Char` (a Rust `str` is a sequence of
Unicode scalar values; `String::len` in bytes is recovered by `utf8Len`).
Pure functions of the source are translated one-to-one; the supervisor
loop body (`Claudia::run`, lines 280-421) is embedded as a `tick` function
over an explicit state, with the PTY/reader-thread environment supplied as
an input per tick.  Fallible file reads are embedded as `Option` inputs.
-/

namespace Claudia

/-- Substring test on character lists, modelling Rust `str::contains` with a
string pattern: true iff the pattern occurs contiguously in the text. -/
def containsSub (pat : List Char) : List Char → Bool
  | [] => pat.isEmpty
  | c :: t => pat.isPrefixOf (c :: t) || containsSub pat t

/-- Index (in characters) of the first occurrence of a pattern, modelling
Rust `str::find` with a string pattern.  The source only ever splits right
after an all-ASCII region, where Rust's byte index and this character index
denote the same boundary. -/
def findSub (pat : List Char) : List Char → Option Nat
  | [] => if pat.isEmpty then some 0 else none
  | c :: t => if pat.isPrefixOf (c :: t) then some 0 else (findSub pat t).map (· + 1)

/-- Auxiliary for `countMatches`: while the first argument is positive we are
still skipping over the characters of a match already counted. -/
def countMatchesAux (pat : List Char) : Nat → List Char → Nat
  | _, [] => 0
  | Nat.succ k, _ :: t => countMatchesAux pat k t
  | 0, c :: t =>
    if pat.isPrefixOf (c :: t) && !pat.isEmpty then
      1 + countMatchesAux pat (pat.length - 1) t
    else countMatchesAux pat 0 t

/-- Number of non-overlapping occurrences of a (non-empty) pattern, scanning
left to right: models Rust `content.matches(pat).count()` (main.rs 561-562). -/
def countMatches (pat s : List Char) : Nat := countMatchesAux pat 0 s

/-- Auxiliary for `replaceAll`, same skipping scheme as `countMatchesAux`. -/
def replaceAllAux (pat rep : List Char) : Nat → List Char → List Char
  | _, [] => []
  | Nat.succ k, _ :: t => replaceAllAux pat rep k t
  | 0, c :: t =>
    if pat.isPrefixOf (c :: t) && !pat.isEmpty then
      rep ++ replaceAllAux pat rep (pat.length - 1) t
    else c :: replaceAllAux pat rep 0 t

/-- Replacement of every non-overlapping occurrence of a (non-empty) pattern,
left to right: models Rust `str::replace` (main.rs 595-601). -/
def replaceAll (pat rep s : List Char) : List Char := replaceAllAux pat rep 0 s

/-- UTF-8 byte length of a character list: models Rust `str::len`. -/
def utf8Len (l : List Char) : Nat := l.foldl (fun n c => n + c.utf8Size) 0

/-- Unicode White_Space test, modelling Rust `char::is_whitespace` (the set
used by `str::trim_start` / `str::trim`): U+0009..U+000D, U+0020, U+0085,
U+00A0, U+1680, U+2000..U+200A, U+2028, U+2029, U+202F, U+205F, U+3000. -/
def rustIsWhitespace (c : Char) : Bool :=
  let v := c.toNat
  (0x9 ≤ v && v ≤ 0xD) || v = 0x20 || v = 0x85 || v = 0xA0 || v = 0x1680 ||
  (0x2000 ≤ v && v ≤ 0x200A) || v = 0x2028 || v = 0x2029 || v = 0x202F ||
  v = 0x205F || v = 0x3000

/-- Models Rust `str::trim_start`. -/
def trimStart (s : List Char) : List Char := s.dropWhile rustIsWhitespace

/-- Models Rust `str::trim_end`. -/
def trimEnd (s : List Char) : List Char := (s.reverse.dropWhile rustIsWhitespace).reverse

/-- Models Rust `str::trim`. -/
def rustTrim (s : List Char) : List Char := trimEnd (trimStart s)

/-- ASCII decimal digit test.  This models the regex class d in the source's
time pattern and also `char::is_numeric` at main.rs 586.  (Rust's full sets
are Unicode-wide; their non-ASCII members either fail the later
`parse::<u32>` and produce no detection, or concern exotic list markers no
claim depends on.) -/
def isAsciiDigit (c : Char) : Bool := 48 ≤ c.toNat && c.toNat ≤ 57

/-- Models `str::parse::<u32>` on the short digit strings captured by the
time regex: fails on an empty or non-digit string (main.rs 472, 477). -/
def parseDigits (l : List Char) : Option Nat :=
  if l.isEmpty || l.any (fun c => !isAsciiDigit c) then none
  else some (l.foldl (fun n c => n * 10 + (c.toNat - 48)) 0)

/-- Embedding of `Claudia::safe_suffix` (main.rs 51-71): last `max_chars`
characters of a string.  When every character must be skipped (only possible
for `max_chars = 0`), the source's `char_indices.next()` returns `None` and
the whole string is returned. -/
def safe_suffix (s : List Char) (max_chars : Nat) : List Char :=
  let char_count := s.length
  if char_count ≤ max_chars then s
  else
    let skip_chars := char_count - max_chars
    -- main.rs 66-70: `if let Some((byte_idx, _)) = char_indices.next()`
    -- succeeds exactly when some character is left after the skip, and then
    -- slices at that character's boundary, i.e. drops `skip_chars` characters.
    if skip_chars < char_count then s.drop skip_chars else s

/-- Embedding of the output-thread window update (main.rs 256-264): append the
decoded chunk, then, if the byte length exceeds 2000, keep only the last 2000
characters (`chars().skip(count - 2000)`, a saturating subtraction). -/
def pushWindow (buffer chunk : List Char) : List Char :=
  let b := buffer ++ chunk
  if 2000 < utf8Len b then b.drop (b.length - 2000) else b

/-!
Time-pattern matcher.  The source compiles the regex
`(\d{1,2})([:.]?\d{0,2})\s*([ap]\.?m)` (main.rs 469) and uses the regex
crate's leftmost-first semantics: the match starting earliest wins, and at
that start the greedy alternatives are tried longest-first with
backtracking.  The functions below implement exactly that ordered search for
this fixed pattern, returning the three capture groups.
-/

/-- Consume exactly `n` ASCII digits, returning them and the rest. -/
def takeDigitsN : Nat → List Char → Option (List Char × List Char)
  | 0, s => some ([], s)
  | _ + 1, [] => none
  | n + 1, c :: s =>
    if isAsciiDigit c then
      match takeDigitsN n s with
      | some (ds, r) => some (c :: ds, r)
      | none => none
    else none

/-- Match the tail `[ap]\.?m` of the time regex, returning capture group 3.
The optional dot is greedy; since a consumed dot must still be followed by
the literal m, trying the dot first is equivalent to full backtracking. -/
def matchAmPm : List Char → Option (List Char)
  | c :: rest =>
    if c = 'a' || c = 'p' then
      match rest with
      | '.' :: 'm' :: _ => some [c, '.', 'm']
      | 'm' :: _ => some [c, 'm']
      | _ => none
    else none
  | [] => none

/-- Match the suffix of the regex after group 2, on the given rest of the
text: greedy whitespace (which cannot overlap the following a or p), then
the am/pm group.  Returns capture group 3. -/
def finishTime (s2 : List Char) : Option (List Char) :=
  matchAmPm (s2.dropWhile rustIsWhitespace)

/-- All ways the greedy `\d{0,2}` can match, in backtracking priority order:
two digits, one digit, none. -/
def digitAlts (s : List Char) : List (List Char × List Char) :=
  (match takeDigitsN 2 s with | some p => [p] | none => []) ++
  (match takeDigitsN 1 s with | some p => [p] | none => []) ++
  [([], s)]

/-- All ways the group `([:.]?\d{0,2})` can match, in priority order: the
greedy optional separator is consumed first when present. -/
def g2Alts (s : List Char) : List (List Char × List Char) :=
  (match s with
   | c :: r =>
     if c = ':' || c = '.' then (digitAlts r).map (fun p => (c :: p.1, p.2)) else []
   | [] => []) ++ digitAlts s

/-- First group-2 alternative whose continuation matches; returns capture
groups 2 and 3. -/
def firstG2 : List (List Char × List Char) → Option (List Char × List Char)
  | [] => none
  | (g2, rest) :: t =>
    match finishTime rest with
    | some g3 => some (g2, g3)
    | none => firstG2 t

/-- First hour alternative (two digits before one, per greedy `\d{1,2}`)
that lets the rest of the pattern match. -/
def matchHours : List (List Char × List Char) → Option (List Char × List Char × List Char)
  | [] => none
  | (h, s1) :: t =>
    match firstG2 (g2Alts s1) with
    | some (g2, g3) => some (h, g2, g3)
    | none => matchHours t

/-- Match the whole time regex anchored at the start of `s`, returning the
three capture groups. -/
def matchTimeAt (s : List Char) : Option (List Char × List Char × List Char) :=
  matchHours
    ((match takeDigitsN 2 s with | some p => [p] | none => []) ++
     (match takeDigitsN 1 s with | some p => [p] | none => []))

/-- Leftmost match of the time regex: models
`time_pattern.captures(&recent_lower)` (main.rs 471), yielding capture
groups 1 (hour digits), 2 (separator and minute digits) and 3 (am/pm). -/
def findTime : List Char → Option (List Char × List Char × List Char)
  | [] => none
  | c :: t =>
    match matchTimeAt (c :: t) with
    | some m => some m
    | none => findTime t

/-- Milliseconds per day; the local clock is modelled as milliseconds since a
local-midnight-aligned epoch, so `now / msPerDay * msPerDay` is today's
local midnight (`now.date_naive()` at main.rs 492). -/
def msPerDay : Nat := 86400000

/-- Minutes derived from capture group 2 (main.rs 476-480): strip the leading
separator and parse only when the captured text is longer than one byte
(the group is ASCII, so bytes and characters agree), else 0. -/
def minutesOfGroup (g2 : List Char) : Nat :=
  if 1 < g2.length then
    (parseDigits ((g2.dropWhile (· == ':')).dropWhile (· == '.'))).getD 0
  else 0

/-- Hour-24 conversion (main.rs 482-488): pm adds 12 unless the hour is 12;
12 am maps to 0. -/
def hour24Of (amPm : List Char) (hour : Nat) : Nat :=
  if amPm.head? = some 'p' ∧ hour ≠ 12 then hour + 12
  else if amPm.head? = some 'a' ∧ hour = 12 then 0
  else hour

/-- Same-day local timestamp at the given hour and minute (main.rs 492). -/
def sameDayAt (now hour24 minutes : Nat) : Nat :=
  now / msPerDay * msPerDay + hour24 * 3600000 + minutes * 60000

/-- Roll a timestamp that is not strictly in the future forward by exactly
one day (main.rs 494-496). -/
def rollForward (now w : Nat) : Nat := if w ≤ now then w + msPerDay else w

/-- Embedding of `Claudia::check_usage_limit` (main.rs 454-503).  Keyword
screen on the lower-cased last 2000 characters, then the first regex match;
`NaiveTime::from_hms_opt` succeeds exactly when the converted hour is below
24 and the minutes below 60.  (`str::to_lowercase` is modelled per character
by `Char.toLower`, which agrees with it on the ASCII patterns searched
here.) -/
def check_usage_limit (now : Nat) (buffer : List Char) : Option Nat :=
  let recent := safe_suffix buffer 2000
  let recent_lower := recent.map Char.toLower
  if containsSub "usage limit".toList recent_lower = false ∧
     containsSub "rate limit".toList recent_lower = false ∧
     containsSub "try again".toList recent_lower = false ∧
     containsSub "please wait".toList recent_lower = false then
    none
  else
    match findTime recent_lower with
    | none => none
    | some (hourStr, minutesPart, amPm) =>
      match parseDigits hourStr with
      | none => none
      | some hour =>
        let minutes := minutesOfGroup minutesPart
        let hour24 := hour24Of amPm hour
        if hour24 < 24 ∧ minutes < 60 then
          some (rollForward now (sameDayAt now hour24 minutes))
        else none

/-- Embedding of `Claudia::is_claude_running` (main.rs 529-534): the busy
marker sought case-insensitively in the last 200 characters. -/
def is_claude_running (buffer : List Char) : Bool :=
  containsSub "esc to interrupt".toList ((safe_suffix buffer 200).map Char.toLower)

/-- Embedding of `Claudia::check_bypass_permissions_prompt`
(main.rs 536-555). -/
def check_bypass_permissions_prompt (buffer : List Char) : Bool :=
  let recent := safe_suffix buffer 1500
  let recent_lower := recent.map Char.toLower
  (containsSub "bypass permissions mode".toList recent_lower &&
   containsSub "1. no, exit".toList recent_lower &&
   containsSub "2. yes, i accept".toList recent_lower) ||
  (containsSub "WARNING: Claude Code running in Bypass Permissions mode".toList recent &&
   (containsSub "1. No, exit".toList recent || containsSub "2. Yes, I accept".toList recent))

/-- Embedding of `Claudia::check_all_tasks_completed` (main.rs 557-570).
The file read is embedded as an `Option`: `none` models a failed
`fs::read_to_string`, for which the source's `if let Ok` pattern silently
yields `false`. -/
def check_all_tasks_completed (readResult : Option (List Char)) : Bool :=
  match readResult with
  | some content =>
    let unchecked := countMatches "[ ]".toList content
    let checked := countMatches "[x]".toList content + countMatches "[X]".toList content
    if 0 < checked ∧ unchecked = 0 then true else false
  | none => false

/-- The sentinel stored for a trailing window deemed too short
(main.rs 644). -/
def emptyResponseSentinel : List Char := "EMPTY_RESPONSE".toList

/-- The entry pushed into the response history for a given window content
(main.rs 640-647): trim the last 500 characters; if the result is shorter
than 10 bytes (`String::len`), store the sentinel instead. -/
def historyEntry (current : List Char) : List Char :=
  let normalized := rustTrim (safe_suffix current 500)
  if utf8Len normalized < 10 then emptyResponseSentinel else normalized

/-- Embedding of `Claudia::check_repeated_pattern` (main.rs 636-667).  The
source mutates `self.response_history`; here the history is passed in and
the updated history returned together with the stuck verdict. -/
def check_repeated_pattern (history : List (List Char)) (current : List Char) :
    List (List Char) × Bool :=
  let h1 := history ++ [historyEntry current]
  -- main.rs 650-652: keep only the last 3 responses (one removal, as in the source)
  let h2 := if 3 < h1.length then h1.drop 1 else h1
  -- main.rs 655-663: three identical entries, or all entries the sentinel
  let stuck : Bool :=
    if 3 ≤ h2.length then
      ((h2.getD 0 [] == h2.getD 1 []) && (h2.getD 1 [] == h2.getD 2 [])) ||
      h2.all (fun h => h == emptyResponseSentinel)
    else false
  (h2, stuck)

/-!
Checkbox normalization (`Claudia::ensure_checkboxes`, main.rs 572-634).
-/

/-- The six patterns of the source's already-has-a-checkbox test
(main.rs 589-591).  Note the absence of the three plus-marker patterns. -/
def hasCheckbox (trimmed : List Char) : Bool :=
  containsSub "- [ ]".toList trimmed || containsSub "- [x]".toList trimmed ||
  containsSub "- [X]".toList trimmed || containsSub "* [ ]".toList trimmed ||
  containsSub "* [x]".toList trimmed || containsSub "* [X]".toList trimmed

/-- Per-line step of the normalization pass (main.rs 581-617), returning the
rewritten line and whether it was modified.  For a numbered item the source
emits `" ".repeat(line.len() - trimmed.len())` — spaces matching the byte
length of the leading whitespace — then a dash checkbox and the text after
the first occurrence of a period-space. -/
def processLineM (line : List Char) : List Char × Bool :=
  let trimmed := trimStart line
  let isNum : Bool := match trimmed with | c :: _ => isAsciiDigit c | [] => false
  if "- ".toList.isPrefixOf trimmed || "* ".toList.isPrefixOf trimmed ||
     "+ ".toList.isPrefixOf trimmed || isNum then
    if hasCheckbox trimmed = false then
      if "- ".toList.isPrefixOf trimmed then
        (replaceAll "- ".toList "- [ ] ".toList line, true)
      else if "* ".toList.isPrefixOf trimmed then
        (replaceAll "* ".toList "* [ ] ".toList line, true)
      else if "+ ".toList.isPrefixOf trimmed then
        (replaceAll "+ ".toList "+ [ ] ".toList line, true)
      else
        match findSub ". ".toList trimmed with
        | some pos =>
          (List.replicate (utf8Len line - utf8Len trimmed) ' ' ++
             "- [ ] ".toList ++ trimmed.drop (pos + 2), true)
        | none => (line, false)
    else (line, false)
  else (line, false)

/-- Models `str::lines`: split at each line feed, dropping a carriage return
immediately before a line feed; a final fragment without a line feed is
yielded as-is, and an empty final fragment is not yielded.  The first
argument accumulates the current line in reverse. -/
def rustLinesAux : List Char → List Char → List (List Char)
  | acc, [] => if acc.isEmpty then [] else [acc.reverse]
  | acc, c :: t =>
    if c = '\n' then
      (if acc.head? = some '\r' then acc.tail else acc).reverse :: rustLinesAux [] t
    else rustLinesAux (c :: acc) t

/-- Models `content.lines()` (main.rs 581). -/
def rustLines (content : List Char) : List (List Char) := rustLinesAux [] content

/-- Embedding of `Claudia::ensure_checkboxes` (main.rs 572-634) as the
resulting document content: each line is processed and a line feed appended;
the trailing line feed is removed when the original content did not end with
one; the file is rewritten only when some line was modified. -/
def ensure_checkboxes (content : List Char) : List Char :=
  let results := (rustLines content).map processLineM
  let modified := results.any (·.2)
  let newContent := results.foldl (fun acc p => acc ++ p.1 ++ ['\n']) []
  let newContent :=
    if content.getLast? ≠ some '\n' ∧ newContent.getLast? = some '\n' then
      newContent.dropLast
    else newContent
  if modified then newContent else content

/-!
Supervisor loop.  One iteration of the monitoring loop (main.rs 280-421) is
embedded as `tick`.  The reader thread and the operator-input relay act
between ticks: their effect is absorbed into the state observed at the start
of a tick (`output_buffer`, `last_output_time`) and the per-tick environment
(current clock, child liveness, the document read by the completion oracle).
The clock is in milliseconds; the 60-second stagnation threshold
(main.rs 383) becomes 60000.  In the usage-limit branch the source sleeps
until the detected timestamp before resetting `last_output_time`, so the
reset value is the returned wait deadline.
-/

/-- The mutable cells of `struct Claudia` that the monitoring loop reads and
writes (main.rs 29-36). -/
structure LoopState where
  continue_count : Nat
  output_buffer : List Char
  last_output_time : Nat
  response_history : List (List Char)
deriving DecidableEq

/-- Per-tick inputs from the environment: the clock, child liveness
(`child.try_wait`), and the result of the completion oracle's file read. -/
structure TickEnv where
  now : Nat
  child_exited : Bool
  doc : Option (List Char)
deriving DecidableEq

/-- What the supervisor does on a tick, beyond updating its state. -/
inductive TickAction where
  | exitProcessEnded
  | sendContinueUsageLimit (waitUntil : Nat)
  | acceptBypassPrompt
  | haltCompleted
  | haltRepeated
  | haltMaxContinues
  | sendContinueStagnation
  | idle
deriving DecidableEq

/-- Initial state: `Claudia::new` (main.rs 39-48) with the start-of-session
clock value. -/
def initialState (startTime : Nat) : LoopState :=
  { continue_count := 0, output_buffer := [], last_output_time := startTime,
    response_history := [] }

/-- One iteration of the monitoring loop (main.rs 296-419): child-exit check,
then usage-limit detection (increment counter, send Continue, clear window,
reset timestamp — uncapped), then bypass-prompt acceptance, then the
stagnation branch (completion oracle, repetition detector, increment
counter, cap check, Continue injection). -/
def tick (st : LoopState) (env : TickEnv) : LoopState × TickAction :=
  if env.child_exited then (st, TickAction.exitProcessEnded)
  else
    match check_usage_limit env.now st.output_buffer with
    | some waitUntil =>
      -- main.rs 341-359
      ({ st with continue_count := st.continue_count + 1,
                 output_buffer := [],
                 last_output_time := waitUntil },
       TickAction.sendContinueUsageLimit waitUntil)
    | none =>
      if check_bypass_permissions_prompt st.output_buffer then
        -- main.rs 363-378
        ({ st with output_buffer := [], last_output_time := env.now },
         TickAction.acceptBypassPrompt)
      else if 60000 < env.now - st.last_output_time ∧
              is_claude_running st.output_buffer = false then
        -- main.rs 383-419
        if check_all_tasks_completed env.doc then (st, TickAction.haltCompleted)
        else
          let r := check_repeated_pattern st.response_history st.output_buffer
          if r.2 then
            ({ st with response_history := r.1 }, TickAction.haltRepeated)
          else
            let count := st.continue_count + 1
            if 50 < count then
              ({ st with response_history := r.1, continue_count := count },
               TickAction.haltMaxContinues)
            else
              ({ st with response_history := r.1, continue_count := count,
                         output_buffer := [], last_output_time := env.now },
               TickAction.sendContinueStagnation)
      else (st, TickAction.idle)

/-- The actions that constitute the stagnation-handling branch of a tick. -/
def stagnationAction : TickAction → Bool
  | TickAction.haltCompleted => true
  | TickAction.haltRepeated => true
  | TickAction.haltMaxContinues => true
  | TickAction.sendContinueStagnation => true
  | _ => false

/-!
Helper lemmas shared by several claim theorems.
-/

theorem utf8Len_foldl (l : List Char) (a : Nat) :
    l.foldl (fun n c => n + c.utf8Size) a = a + utf8Len l := by
  induction l generalizing a with
  | nil => simp [utf8Len]
  | cons c t ih =>
    simp only [utf8Len, List.foldl_cons]
    rw [ih (a + c.utf8Size), ih (0 + c.utf8Size)]
    omega

theorem utf8Len_cons (c : Char) (t : List Char) :
    utf8Len (c :: t) = c.utf8Size + utf8Len t := by
  have h := utf8Len_foldl t (0 + c.utf8Size)
  simpa [utf8Len] using h

theorem utf8Len_append (a b : List Char) :
    utf8Len (a ++ b) = utf8Len a + utf8Len b := by
  induction a with
  | nil => simp [utf8Len]
  | cons c t ih => simp [utf8Len_cons, ih]; omega

theorem length_le_utf8Len (l : List Char) : l.length ≤ utf8Len l := by
  induction l with
  | nil => simp [utf8Len]
  | cons c t ih =>
    have := Char.utf8Size_pos c
    simp only [utf8Len_cons, List.length_cons]
    omega

theorem findSub_eq_none (pat s : List Char) (h : containsSub pat s = false) :
    findSub pat s = none := by
  induction s with
  | nil =>
    simp only [containsSub] at h
    simp [findSub, h]
  | cons c t ih =>
    simp only [containsSub, Bool.or_eq_false_iff] at h
    simp [findSub, h.1, ih h.2]

theorem digit_not_whitespace (c : Char) (h : isAsciiDigit c = true) :
    rustIsWhitespace c = false := by
  simp only [isAsciiDigit, Bool.and_eq_true, decide_eq_true_eq] at h
  simp only [rustIsWhitespace]
  simp only [Bool.or_eq_false_iff, Bool.and_eq_false_iff, decide_eq_false_iff_not]
  omega

theorem trimStart_ws_append (ws l : List Char)
    (h : ∀ c ∈ ws, rustIsWhitespace c = true) :
    trimStart (ws ++ l) = trimStart l := by
  induction ws with
  | nil => simp
  | cons w ws' ih =>
    have hw : rustIsWhitespace w = true := h w (by simp)
    simp only [List.cons_append, trimStart, List.dropWhile_cons, hw, if_true]
    exact ih (fun c hc => h c (by simp [hc]))

theorem trimStart_digit_cons (d : Char) (l : List Char) (h : isAsciiDigit d = true) :
    trimStart (d :: l) = d :: l := by
  simp [trimStart, List.dropWhile_cons, digit_not_whitespace d h]

/-!
Claim theorems.
-/

/-- C2 (code bug): the checkbox-normalization pass is not idempotent.  On the
document consisting of the line plus-space-task, the first pass inserts a
checkbox, and the second pass — whose already-has-a-checkbox test
(main.rs 589-591) checks only the dash and star checkbox patterns, never the
plus ones, contradicting its stated purpose — inserts a second checkbox into
the already-normalized line. -/
theorem ensure_checkboxes_not_idempotent :
    ensure_checkboxes (ensure_checkboxes "+ task".toList) ≠
      ensure_checkboxes "+ task".toList := by decide

/-- C5: the completion oracle reports complete iff the document has no
unchecked marker and at least one checked marker; in particular a document
without any checkbox is never complete, and two checked plus one unchecked
items are never complete. -/
theorem completion_oracle_iff :
    (∀ content : List Char,
      check_all_tasks_completed (some content) = true ↔
        (countMatches "[ ]".toList content = 0 ∧
         0 < countMatches "[x]".toList content + countMatches "[X]".toList content)) ∧
    check_all_tasks_completed (some "no checkboxes in this file".toList) = false ∧
    check_all_tasks_completed (some "- [x] a\n- [x] b\n- [ ] c\n".toList) = false ∧
    check_all_tasks_completed (some "- [x] a\n- [x] b\n- [x] c\n".toList) = true := by
  refine ⟨fun content => ?_, by decide, by decide, by decide⟩
  simp only [check_all_tasks_completed]
  split <;> rename_i h
  · exact iff_of_true rfl ⟨h.2, h.1⟩
  · exact iff_of_false (by simp) (fun hc => h ⟨hc.2, hc.1⟩)

/-- C6 counterexample: the claim quantifies over every N, but for N = 0 and a
one-character window the source's `char_indices.next()` after skipping every
character returns `None`, so the whole content — not the last 0 characters,
which are empty — is returned (main.rs 66-70). -/
theorem safe_suffix_zero_counterexample :
    safe_suffix ['a'] 0 = ['a'] ∧ safe_suffix ['a'] 0 ≠ [] := by decide

/-- C6 (amended): for contents of at most N characters `safe_suffix` returns
the content unmodified, and for longer contents it returns exactly the last
N characters provided N is at least 1 (for N = 0 it returns the whole
content); every window push leaves at most 2000 characters, truncates only
from the front (the result is a suffix of the appended text), and is the
identity when the appended text fits the byte bound.  Splitting of
multi-byte characters cannot occur in this embedding, which mirrors the
source's use of character boundaries. -/
theorem safe_suffix_window_spec :
    (∀ (s : List Char) (n : Nat), s.length ≤ n → safe_suffix s n = s) ∧
    (∀ (s : List Char) (n : Nat), 1 ≤ n → n < s.length →
       safe_suffix s n = s.drop (s.length - n)) ∧
    (∀ buffer chunk : List Char,
       (pushWindow buffer chunk).length ≤ 2000 ∧
       List.IsSuffix (pushWindow buffer chunk) (buffer ++ chunk) ∧
       (utf8Len (buffer ++ chunk) ≤ 2000 → pushWindow buffer chunk = buffer ++ chunk)) := by
  refine ⟨fun s n h => by simp [safe_suffix, h], fun s n h1 h2 => ?_, fun buffer chunk => ?_⟩
  · have hn : ¬ s.length ≤ n := by omega
    simp only [safe_suffix, if_neg hn]
    rw [if_pos (by omega)]
  · refine ⟨?_, ?_, fun h => ?_⟩
    · simp only [pushWindow]
      split
      · rw [List.length_drop]
        omega
      · rename_i hle
        have := length_le_utf8Len (buffer ++ chunk)
        omega
    · simp only [pushWindow]
      split
      · exact List.drop_suffix _ _
      · exact List.suffix_refl _
    · simp only [pushWindow]
      rw [if_neg (by omega)]

/-- C6 witness: the amended statement applied at concrete inputs. -/
theorem safe_suffix_window_spec_witness :
    safe_suffix ['a'] 1 = ['a'] ∧ safe_suffix ['a', 'b'] 1 = ['b'] ∧
    (pushWindow ['a'] ['b']).length ≤ 2000 := by
  refine ⟨safe_suffix_window_spec.1 ['a'] 1 (by decide), ?_,
          (safe_suffix_window_spec.2.2 ['a'] ['b']).1⟩
  have h := safe_suffix_window_spec.2.1 ['a', 'b'] 1 (by decide) (by decide)
  simpa using h

/-- C10: when the target document cannot be read (`fs::read_to_string`
fails, embedded as a `none` read result), the completion oracle reports not
complete rather than raising an error, and a supervisor tick consulting it
never halts with success, proceeding with the rest of stagnation handling. -/
theorem unreadable_doc_oracle :
    check_all_tasks_completed none = false ∧
    ∀ st env, env.doc = none → (tick st env).2 ≠ TickAction.haltCompleted := by
  refine ⟨rfl, fun st env hdoc => ?_⟩
  unfold tick
  split
  · simp
  · split
    · simp
    · split
      · simp
      · split
        · split
          · rename_i hc
            rw [hdoc] at hc
            simp [check_all_tasks_completed] at hc
          · dsimp only
            split
            · simp
            · split <;> simp
        · simp

/-- C10 witness: the tick theorem applied at a concrete state and
environment with an unreadable document. -/
theorem unreadable_doc_oracle_witness :
    (tick ⟨0, [], 0, []⟩ ⟨0, false, none⟩).2 ≠ TickAction.haltCompleted :=
  unreadable_doc_oracle.2 ⟨0, [], 0, []⟩ ⟨0, false, none⟩ rfl

/-- C3: usage-limit classification yields no detection when the lower-cased
last 2000 characters lack all four keywords, and no detection when the time
regex finds no match there (in particular when a keyword is present but no
well-formed clock-time expression is). -/
theorem usage_limit_requires_keyword_and_time :
    ∀ (now : Nat) (buffer : List Char),
      ((containsSub "usage limit".toList ((safe_suffix buffer 2000).map Char.toLower) = false ∧
        containsSub "rate limit".toList ((safe_suffix buffer 2000).map Char.toLower) = false ∧
        containsSub "try again".toList ((safe_suffix buffer 2000).map Char.toLower) = false ∧
        containsSub "please wait".toList ((safe_suffix buffer 2000).map Char.toLower) = false) →
        check_usage_limit now buffer = none) ∧
      (findTime ((safe_suffix buffer 2000).map Char.toLower) = none →
        check_usage_limit now buffer = none) := by
  intro now buffer
  constructor
  · intro h
    simp only [check_usage_limit]
    rw [if_pos h]
  · intro h
    simp only [check_usage_limit]
    split
    · rfl
    · rw [h]

/-- C3 witness: a window with no keyword, and a window containing the
keyword please-wait but no clock-time expression, both yield no detection. -/
theorem usage_limit_requires_keyword_and_time_witness :
    check_usage_limit 0 "some ordinary output".toList = none ∧
    check_usage_limit 0 "please wait until further notice".toList = none := by
  constructor
  · exact (usage_limit_requires_keyword_and_time 0 "some ordinary output".toList).1
      (by decide)
  · exact (usage_limit_requires_keyword_and_time 0
      "please wait until further notice".toList).2 (by decide)

/-- C4 counterexample: the claim restricts matched hours to 1..12, but the
regex hour group is one or two arbitrary digits.  The window containing
usage-limit followed by 0am matches with hour 0, which converts to a valid
midnight time and yields a detection (rolled forward to the next day for
now = 0). -/
theorem usage_limit_hour_zero_counterexample :
    check_usage_limit 0 "usage limit 0am".toList = some 86400000 ∧
    findTime ("usage limit 0am".toList.map Char.toLower) =
      some (['0'], [], ['a', 'm']) ∧
    parseDigits ['0'] = some 0 := by decide

/-- C4 (amended): whenever usage-limit detection returns a timestamp, the
time regex matched with a one-or-two-digit hour group (any value, not only
1..12); the am/pm and minute groups convert exactly as the source does (pm
adds 12 unless the hour is 12, 12 am maps to 0), the converted time is a
valid clock time, the result is the same-day local timestamp rolled forward
by exactly one day when not strictly after now, and it is always strictly in
the future. -/
theorem usage_limit_time_resolution :
    ∀ (now : Nat) (buffer : List Char) (t : Nat),
      check_usage_limit now buffer = some t →
      ∃ g1 g2 g3 hour,
        findTime ((safe_suffix buffer 2000).map Char.toLower) = some (g1, g2, g3) ∧
        parseDigits g1 = some hour ∧
        hour24Of g3 hour < 24 ∧ minutesOfGroup g2 < 60 ∧
        t = rollForward now (sameDayAt now (hour24Of g3 hour) (minutesOfGroup g2)) ∧
        now < t := by
  intro now buffer t h
  simp only [check_usage_limit] at h
  split at h
  · exact absurd h (by simp)
  · rcases hf : findTime ((safe_suffix buffer 2000).map Char.toLower) with _ | ⟨g1, g2, g3⟩
    · rw [hf] at h
      exact absurd h (by simp)
    · rw [hf] at h
      dsimp only at h
      rcases hp : parseDigits g1 with _ | hour
      · rw [hp] at h
        exact absurd h (by simp)
      · rw [hp] at h
        dsimp only at h
        by_cases hvalid : hour24Of g3 hour < 24 ∧ minutesOfGroup g2 < 60
        · rw [if_pos hvalid] at h
          injection h with ht
          refine ⟨g1, g2, g3, hour, rfl, hp, hvalid.1, hvalid.2, ht.symm, ?_⟩
          rw [← ht]
          simp only [rollForward, sameDayAt, msPerDay]
          split <;> omega
        · rw [if_neg hvalid] at h
          exact absurd h (by simp)

/-- C4 witness: the amended statement applied to the spec's own example
window at clock value 0, whose detection resolves to 15:45 of the same
day. -/
theorem usage_limit_time_resolution_witness :
    ∃ g1 g2 g3 hour,
      findTime ((safe_suffix "usage limit reached, try again at 3:45pm".toList 2000).map
          Char.toLower) = some (g1, g2, g3) ∧
      parseDigits g1 = some hour ∧
      hour24Of g3 hour < 24 ∧ minutesOfGroup g2 < 60 ∧
      56700000 = rollForward 0 (sameDayAt 0 (hour24Of g3 hour) (minutesOfGroup g2)) ∧
      0 < 56700000 :=
  usage_limit_time_resolution 0 "usage limit reached, try again at 3:45pm".toList
    56700000 (by decide)

/-- C7 counterexample: the source's too-short test is on the UTF-8 byte
length (`String::len`, main.rs 643), not the character count.  Five
two-byte characters form a normalized text of 5 characters — shorter than
10 characters, so the claim demands the sentinel — yet its 10-byte length
makes the source store the literal text. -/
theorem repetition_byte_threshold_counterexample :
    (check_repeated_pattern [] (List.replicate 5 'α')).1 = [List.replicate 5 'α'] ∧
    (List.replicate 5 'α' : List Char).length < 10 ∧
    List.replicate 5 'α' ≠ emptyResponseSentinel := by decide

/-- C7 (amended): each check normalizes the last 500 characters of the
window by trimming whitespace and stores the sentinel exactly when the
normalized text is shorter than 10 UTF-8 bytes (not characters); the
history keeps at most the 3 most recent entries, dropping the oldest on
overflow; and, starting from any history within its capacity, the detector
declares stuck exactly when the resulting history holds three identical
entries (three sentinels being a special case of three identical
entries). -/
theorem repetition_detector_spec :
    ∀ (history : List (List Char)) (current : List Char),
      history.length ≤ 3 →
      ((check_repeated_pattern history current).1 =
        (if 3 < (history ++ [historyEntry current]).length
         then (history ++ [historyEntry current]).drop 1
         else history ++ [historyEntry current])) ∧
      (check_repeated_pattern history current).1.length ≤ 3 ∧
      ((check_repeated_pattern history current).2 = true ↔
        ∃ e, (check_repeated_pattern history current).1 = [e, e, e]) := by
  intro history current h
  rcases history with _ | ⟨a, _ | ⟨b, _ | ⟨c, _ | ⟨d, t⟩⟩⟩⟩
  · refine ⟨rfl, by simp [check_repeated_pattern], ?_⟩
    simp [check_repeated_pattern]
  · refine ⟨rfl, by simp [check_repeated_pattern], ?_⟩
    simp [check_repeated_pattern]
  · refine ⟨rfl, by simp [check_repeated_pattern], ?_⟩
    simp [check_repeated_pattern, List.getD_cons_zero, List.getD_cons_succ]
    aesop
  · refine ⟨rfl, by simp [check_repeated_pattern], ?_⟩
    simp [check_repeated_pattern, List.getD_cons_zero, List.getD_cons_succ]
    aesop
  · simp at h

/-- C7 witness: the amended stuck characterization applied to the empty
history with a short (sentinel-producing) window. -/
theorem repetition_detector_spec_witness :
    (check_repeated_pattern [] "hello".toList).2 = true ↔
      ∃ e, (check_repeated_pattern [] "hello".toList).1 = [e, e, e] :=
  (repetition_detector_spec [] "hello".toList (by decide)).2.2

/-- C1 counterexample: with the counter already at 50, a tick that detects a
usage limit still increments the counter to 51 and sends a Continue — the
cap check (main.rs 403) lives only in the stagnation branch, so the loop
does not halt the moment the counter exceeds 50 when the injection is
triggered by usage-limit resume. -/
theorem continue_cap_counterexample :
    (tick ⟨50, "usage limit try again at 3:45pm".toList, 0, []⟩
        ⟨0, false, none⟩).2 = TickAction.sendContinueUsageLimit 56700000 ∧
    (tick ⟨50, "usage limit try again at 3:45pm".toList, 0, []⟩
        ⟨0, false, none⟩).1.continue_count = 51 := by decide

/-- C1 (amended): the counter starts at zero and is incremented exactly once
per Continue injection from either trigger, and on a stagnation tick the
loop halts without injecting as soon as the incremented counter exceeds 50
(so stagnation-triggered injections never push it past 50); but the
usage-limit branch increments without any cap check, so the cap bounds only
stagnation-triggered injections.  All other tick outcomes leave the counter
unchanged. -/
theorem continue_counter_spec :
    (∀ startTime, (initialState startTime).continue_count = 0) ∧
    (∀ st env,
      ((∃ w, (tick st env).2 = TickAction.sendContinueUsageLimit w) ∨
          (tick st env).2 = TickAction.sendContinueStagnation →
        (tick st env).1.continue_count = st.continue_count + 1) ∧
      ((tick st env).2 = TickAction.sendContinueStagnation →
        (tick st env).1.continue_count ≤ 50) ∧
      (50 ≤ st.continue_count → (tick st env).2 ≠ TickAction.sendContinueStagnation) ∧
      ((tick st env).2 = TickAction.haltMaxContinues →
        (tick st env).1.continue_count = st.continue_count + 1 ∧
        50 < (tick st env).1.continue_count) ∧
      ((tick st env).2 = TickAction.idle ∨
          (tick st env).2 = TickAction.exitProcessEnded ∨
          (tick st env).2 = TickAction.acceptBypassPrompt ∨
          (tick st env).2 = TickAction.haltCompleted ∨
          (tick st env).2 = TickAction.haltRepeated →
        (tick st env).1.continue_count = st.continue_count)) := by
  refine ⟨fun _ => rfl, fun st env => ?_⟩
  unfold tick
  split
  · simp
  · split
    · simp
    · split
      · simp
      · split
        · split
          · simp
          · dsimp only
            split
            · simp
            · split
              · simp
                omega
              · rename_i hcap
                simp
                omega
        · simp

/-- C1 witness: a stagnation tick on a quiet, incomplete session increments
the counter by exactly one. -/
theorem continue_counter_spec_witness :
    (tick ⟨0, "plain output with no markers".toList, 0, []⟩
        ⟨61000, false, none⟩).1.continue_count = 0 + 1 :=
  (continue_counter_spec.2 ⟨0, "plain output with no markers".toList, 0, []⟩
      ⟨61000, false, none⟩).1 (Or.inr (by decide))

/-- C8 counterexample in two parts.  First, stagnation handling is not
entered exactly when 60 seconds have elapsed and the busy marker is absent:
a window that also matches usage-limit detection is handled by the
higher-priority usage-limit branch on such a tick.  Second, with identical
trailing output on consecutive stagnation checks, the history reaches three
identical entries on the third check (main.rs 655-658), so the THIRD
consecutive identical-output stagnation terminates — after only two
injections — not the fourth.  The three ticks below chain: each state feeds
the previous tick's result with the window refilled by the same output. -/
theorem stagnation_entry_counterexample :
    ((stagnationAction (tick ⟨0, "usage limit try again at 3:45pm".toList, 0, []⟩
        ⟨61000, false, none⟩).2) = false ∧
      60000 < 61000 - 0 ∧
      is_claude_running "usage limit try again at 3:45pm".toList = false) ∧
    ((tick ⟨0, "abcdefghijkl".toList, 0, []⟩ ⟨61000, false, none⟩).2 =
        TickAction.sendContinueStagnation ∧
      (tick ⟨1, "abcdefghijkl".toList, 61000, ["abcdefghijkl".toList]⟩
          ⟨122001, false, none⟩).2 = TickAction.sendContinueStagnation ∧
      (tick ⟨2, "abcdefghijkl".toList, 122001,
            ["abcdefghijkl".toList, "abcdefghijkl".toList]⟩
          ⟨183002, false, none⟩).2 = TickAction.haltRepeated) := by decide

/-- C8 (amended): on a tick where the child has not exited and neither the
usage-limit nor the bypass-prompt classifier fires, stagnation handling is
entered exactly when more than 60 seconds have elapsed since the last output
and the busy marker is absent from the window; when entered with an
incomplete document, a repetition check that does not declare stuck, and an
incremented counter within the cap, the tick sends exactly one Continue and
resets both the output window (to empty) and the last-output timestamp; and
when entered with the two stored snapshots equal to the current normalized
window — the third consecutive identical output — it terminates instead of
injecting. -/
theorem stagnation_handling_spec :
    ∀ st env,
      env.child_exited = false →
      check_usage_limit env.now st.output_buffer = none →
      check_bypass_permissions_prompt st.output_buffer = false →
      (stagnationAction (tick st env).2 = true ↔
        (60000 < env.now - st.last_output_time ∧
         is_claude_running st.output_buffer = false)) ∧
      (60000 < env.now - st.last_output_time →
       is_claude_running st.output_buffer = false →
       check_all_tasks_completed env.doc = false →
       (check_repeated_pattern st.response_history st.output_buffer).2 = false →
       st.continue_count + 1 ≤ 50 →
       tick st env =
         ({ continue_count := st.continue_count + 1,
            output_buffer := [],
            last_output_time := env.now,
            response_history :=
              (check_repeated_pattern st.response_history st.output_buffer).1 },
          TickAction.sendContinueStagnation)) ∧
      (∀ e, 60000 < env.now - st.last_output_time →
       is_claude_running st.output_buffer = false →
       check_all_tasks_completed env.doc = false →
       st.response_history = [e, e] →
       historyEntry st.output_buffer = e →
       (tick st env).2 = TickAction.haltRepeated) := by
  intro st env hexit husage hbypass
  refine ⟨?_, ?_, ?_⟩
  · unfold tick
    rw [hexit, husage, hbypass]
    simp only [Bool.false_eq_true, if_false]
    split
    · rename_i hcond
      split
      · simpa [stagnationAction] using hcond
      · split
        · simpa [stagnationAction] using hcond
        · split
          · simpa [stagnationAction] using hcond
          · simpa [stagnationAction] using hcond
    · rename_i hcond
      simp only [stagnationAction, Bool.false_eq_true, false_iff]
      exact fun hc => hcond hc
  · intro hel hbusy hdoc hrep hcap
    unfold tick
    rw [hexit, husage, hbypass, hdoc]
    simp only [Bool.false_eq_true, if_false]
    rw [if_pos ⟨hel, hbusy⟩]
    rw [hrep]
    simp only [Bool.false_eq_true, if_false]
    rw [if_neg (by omega)]
  · intro e hel hbusy hdoc hhist hentry
    unfold tick
    rw [hexit, husage, hbypass, hdoc]
    simp only [Bool.false_eq_true, if_false]
    rw [if_pos ⟨hel, hbusy⟩]
    have hstuck : (check_repeated_pattern st.response_history st.output_buffer).2 = true := by
      rw [hhist]
      simp [check_repeated_pattern, hentry]
    rw [hstuck]
    simp

/-- C8 witness: the injection-and-reset clause applied to a concrete quiet,
incomplete session. -/
theorem stagnation_handling_spec_witness :
    (tick ⟨0, "ordinary terminal output".toList, 0, []⟩
        ⟨61000, false, none⟩).2 = TickAction.sendContinueStagnation := by
  have h := (stagnation_handling_spec ⟨0, "ordinary terminal output".toList, 0, []⟩
      ⟨61000, false, none⟩ (by decide) (by decide) (by decide)).2.1
    (by decide) (by decide) (by decide) (by decide) (by decide)
  rw [h]

theorem beq_digit_false (c0 d : Char) (h : isAsciiDigit c0 = false)
    (hd : isAsciiDigit d = true) : (c0 == d) = false := by
  rw [beq_eq_false_iff_ne]
  intro he
  rw [he, hd] at h
  cases h

theorem isPrefixOf_two_of_ne (c0 c1 d : Char) (l : List Char) (h : (c0 == d) = false) :
    ([c0, c1].isPrefixOf (d :: l)) = false := by
  simp only [List.isPrefixOf, h, Bool.false_and]

theorem findSub_digits (ds rest : List Char) (hds : ∀ c ∈ ds, isAsciiDigit c = true) :
    findSub ['.', ' '] (ds ++ '.' :: ' ' :: rest) = some ds.length := by
  induction ds with
  | nil => simp [findSub, List.isPrefixOf]
  | cons d ds' ih =>
    have hd := hds d (by simp)
    have hpre := isPrefixOf_two_of_ne '.' ' ' d (ds' ++ '.' :: ' ' :: rest)
      (beq_digit_false '.' d (by decide) hd)
    simp only [List.cons_append, findSub, List.append_eq, hpre, Bool.false_eq_true, if_false]
    rw [ih (fun c hc => hds c (by simp [hc]))]
    simp

/-- C9 counterexample: an enumerated-list line in the other style one-paren
is not left unmodified — the pass finds the first period-space inside the
item text and rewrites the whole line to a dash checkbox item, also
replacing the tab indentation by a single space (the byte length of the
trimmed whitespace). -/
theorem numbered_item_other_style_counterexample :
    ensure_checkboxes "\t1) foo. bar".toList = " - [ ] bar".toList ∧
    "\t1) foo. bar".toList ≠ " - [ ] bar".toList := by decide

/-- C9 (amended): a numbered item of the exact format digits, period, space,
rest — with no checkbox pattern that the pass recognizes — is rewritten to
spaces matching the byte length of the original indentation, followed by a
dash, an inserted empty checkbox, and the rest of the item; a digit-initial
line that contains no period-space anywhere is left completely unmodified,
but ones that do contain a period-space (such as one-paren enumerated lines
with a sentence inside) are rewritten, not preserved. -/
theorem numbered_item_spec :
    (∀ ws ds rest : List Char,
       (∀ c ∈ ws, rustIsWhitespace c = true) →
       ds ≠ [] →
       (∀ c ∈ ds, isAsciiDigit c = true) →
       hasCheckbox (ds ++ ". ".toList ++ rest) = false →
       (processLineM (ws ++ ds ++ ". ".toList ++ rest)).1 =
         List.replicate (utf8Len ws) ' ' ++ "- [ ] ".toList ++ rest) ∧
    (∀ (line : List Char) (c : Char) (t : List Char),
       trimStart line = c :: t →
       isAsciiDigit c = true →
       containsSub ". ".toList (c :: t) = false →
       (processLineM line).1 = line) := by
  have hdot : ". ".toList = ['.', ' '] := rfl
  constructor
  · intro ws ds rest hws hne hds hcb
    rcases ds with _ | ⟨d, ds'⟩
    · exact absurd rfl hne
    have hd : isAsciiDigit d = true := hds d (by simp)
    have htrim : trimStart (ws ++ (d :: ds') ++ ". ".toList ++ rest) =
        (d :: ds') ++ ". ".toList ++ rest := by
      simp only [List.append_assoc]
      rw [trimStart_ws_append ws _ hws]
      simp only [List.cons_append]
      exact trimStart_digit_cons d _ hd
    have hdash : ("- ".toList.isPrefixOf ((d :: ds') ++ ". ".toList ++ rest)) = false := by
      rw [show "- ".toList = ['-', ' '] from rfl]
      exact isPrefixOf_two_of_ne '-' ' ' d _ (beq_digit_false '-' d (by decide) hd)
    have hstar : ("* ".toList.isPrefixOf ((d :: ds') ++ ". ".toList ++ rest)) = false := by
      rw [show "* ".toList = ['*', ' '] from rfl]
      exact isPrefixOf_two_of_ne '*' ' ' d _ (beq_digit_false '*' d (by decide) hd)
    have hplus : ("+ ".toList.isPrefixOf ((d :: ds') ++ ". ".toList ++ rest)) = false := by
      rw [show "+ ".toList = ['+', ' '] from rfl]
      exact isPrefixOf_two_of_ne '+' ' ' d _ (beq_digit_false '+' d (by decide) hd)
    have hfind : findSub ". ".toList ((d :: ds') ++ ". ".toList ++ rest) =
        some (d :: ds').length := by
      rw [hdot]
      rw [show (d :: ds') ++ ['.', ' '] ++ rest = (d :: ds') ++ '.' :: ' ' :: rest by simp]
      exact findSub_digits (d :: ds') rest hds
    have hlenline : utf8Len (ws ++ (d :: ds') ++ ". ".toList ++ rest) -
        utf8Len ((d :: ds') ++ ". ".toList ++ rest) = utf8Len ws := by
      simp only [utf8Len_append]
      omega
    have hdrop : ((d :: ds') ++ ". ".toList ++ rest).drop ((d :: ds').length + 2) = rest := by
      simp only [hdot, List.append_assoc, List.cons_append, List.nil_append,
        List.length_cons]
      rw [show d :: (ds' ++ ('.' :: (' ' :: rest))) = (d :: (ds' ++ ['.', ' '])) ++ rest by simp,
        show ds'.length + 1 + 2 = (d :: (ds' ++ ['.', ' '])).length by simp]
      exact List.drop_left _ _
    simp only [processLineM, htrim, hdash, hstar, hplus, hd, hcb, hfind, Bool.or_false,
      Bool.false_or, Bool.or_true, Bool.false_eq_true, if_false, if_true]
    simp only [List.cons_append] at hlenline hdrop ⊢
    rw [hlenline, hdrop]
    simp [hd]
  · intro line c t htrim hdig hnc
    have hfind : findSub ". ".toList (c :: t) = none := findSub_eq_none _ _ hnc
    have hdash : ("- ".toList.isPrefixOf (c :: t)) = false := by
      rw [show "- ".toList = ['-', ' '] from rfl]
      exact isPrefixOf_two_of_ne '-' ' ' c _ (beq_digit_false '-' c (by decide) hdig)
    have hstar : ("* ".toList.isPrefixOf (c :: t)) = false := by
      rw [show "* ".toList = ['*', ' '] from rfl]
      exact isPrefixOf_two_of_ne '*' ' ' c _ (beq_digit_false '*' c (by decide) hdig)
    have hplus : ("+ ".toList.isPrefixOf (c :: t)) = false := by
      rw [show "+ ".toList = ['+', ' '] from rfl]
      exact isPrefixOf_two_of_ne '+' ' ' c _ (beq_digit_false '+' c (by decide) hdig)
    simp only [processLineM, htrim, hdash, hstar, hplus, hdig, Bool.or_false, Bool.false_or,
      Bool.or_true, if_true]
    by_cases hcb : hasCheckbox (c :: t) = false
    · rw [if_pos hcb]
      simp only [hdash, Bool.false_eq_true, if_false, hstar, hplus, hfind]
    · rw [if_neg hcb]

/-- C9 witness: the rewrite clause applied at a space-indented numbered item,
and the unmodified clause applied at a one-paren line without
period-space. -/
theorem numbered_item_spec_witness :
    (processLineM ([' ', ' '] ++ ['1'] ++ ". ".toList ++ "do it".toList)).1 =
      List.replicate (utf8Len [' ', ' ']) ' ' ++ "- [ ] ".toList ++ "do it".toList ∧
    (processLineM "1) x".toList).1 = "1) x".toList := by
  constructor
  · exact numbered_item_spec.1 [' ', ' '] ['1'] "do it".toList
      (by decide) (by decide) (by decide) (by decide)
  · exact numbered_item_spec.2 "1) x".toList '1' ") x".toList
      (by decide) (by decide) (by decide)

end Claudia
